import Mathlib

/-!
Verification development for the tideland go-uuid package.

The Go source (src/uuid.go, current revision) is shallowly embedded:
bytes are Nat values below 256, Go byte() conversions are written with
an explicit % 256, Go bitwise operators are kept as the Nat bitwise
operators, and the effectful inputs of the generators (clock readings,
random bytes, the shared sequencer state) are passed explicitly.
-/

namespace GoUuid

/-- UUID versions, src/uuid.go constants V1 .. V7 (type Version byte). -/
def V1 : Nat := 1

def V2 : Nat := 2

def V3 : Nat := 3

def V4 : Nat := 4

def V5 : Nat := 5

def V6 : Nat := 6

def V7 : Nat := 7

/-- Variant constant VariantNCS = 0 from src/uuid.go. -/
def VariantNCS : Nat := 0

/-- Variant constant VariantRFC4122 = 4 from src/uuid.go. -/
def VariantRFC4122 : Nat := 4

/-- Variant constant VariantMicrosoft = 6 from src/uuid.go. -/
def VariantMicrosoft : Nat := 6

/-- Variant constant VariantFuture = 7 from src/uuid.go. -/
def VariantFuture : Nat := 7

/-- Domain constant Person = 0 from src/uuid.go. -/
def Person : Nat := 0

/-- Domain constant Group = 1 from src/uuid.go. -/
def Group : Nat := 1

/-- Domain constant Org = 2 from src/uuid.go. -/
def Org : Nat := 2

/-- UUID represents a universal identifier with 16 bytes
(src/uuid.go: type UUID [16]byte).  Each field models one byte. -/
structure UUID where
  b0 : Nat
  b1 : Nat
  b2 : Nat
  b3 : Nat
  b4 : Nat
  b5 : Nat
  b6 : Nat
  b7 : Nat
  b8 : Nat
  b9 : Nat
  b10 : Nat
  b11 : Nat
  b12 : Nat
  b13 : Nat
  b14 : Nat
  b15 : Nat
deriving DecidableEq, Repr

/-- List view of the 16 bytes of a UUID, in index order. -/
def UUID.toList (u : UUID) : List Nat :=
  [u.b0, u.b1, u.b2, u.b3, u.b4, u.b5, u.b6, u.b7,
   u.b8, u.b9, u.b10, u.b11, u.b12, u.b13, u.b14, u.b15]

/-- Wellformedness: every modelled byte is an actual byte value. -/
def UUID.Wf (u : UUID) : Prop :=
  u.b0 < 256 ∧ u.b1 < 256 ∧ u.b2 < 256 ∧ u.b3 < 256 ∧
  u.b4 < 256 ∧ u.b5 < 256 ∧ u.b6 < 256 ∧ u.b7 < 256 ∧
  u.b8 < 256 ∧ u.b9 < 256 ∧ u.b10 < 256 ∧ u.b11 < 256 ∧
  u.b12 < 256 ∧ u.b13 < 256 ∧ u.b14 < 256 ∧ u.b15 < 256

instance (u : UUID) : Decidable u.Wf := by
  unfold UUID.Wf; infer_instance

/-- Zero value of a Go UUID array (uuid := UUID).  All bytes zero. -/
def UUID.zero : UUID :=
  ⟨0, 0, 0, 0, 0, 0, 0, 0, 0, 0, 0, 0, 0, 0, 0, 0⟩

/-- Build a UUID from the first 16 entries of a byte list, missing
entries staying zero; models copy(uuid[:], data) into a zeroed array. -/
def listToUUID (l : List Nat) : UUID :=
  ⟨l.getD 0 0, l.getD 1 0, l.getD 2 0, l.getD 3 0,
   l.getD 4 0, l.getD 5 0, l.getD 6 0, l.getD 7 0,
   l.getD 8 0, l.getD 9 0, l.getD 10 0, l.getD 11 0,
   l.getD 12 0, l.getD 13 0, l.getD 14 0, l.getD 15 0⟩

/-- dump creates a copy as a byte slice (src/uuid.go dump). -/
def UUID.dump (u : UUID) : List Nat := u.toList

/-- setVersion sets the version part of the UUID
(src/uuid.go: uuid[6] = (uuid[6] AND 0x0f) OR (byte(v) << 4)). -/
def UUID.setVersion (u : UUID) (v : Nat) : UUID :=
  { u with b6 := (u.b6 &&& 0x0f) ||| (v <<< 4) }

/-- setVariant sets the variant part of the UUID, always RFC4122
(src/uuid.go: uuid[8] = (uuid[8] AND 0x1f) OR (byte(VariantRFC4122) << 5)). -/
def UUID.setVariant (u : UUID) : UUID :=
  { u with b8 := (u.b8 &&& 0x1f) ||| (VariantRFC4122 <<< 5) }

/-- Version returns the version number of the UUID algorithm
(src/uuid.go: Version(uuid[6] AND 0xf0 >> 4)). -/
def UUID.Version (u : UUID) : Nat :=
  (u.b6 &&& 0xf0) >>> 4

/-- Variant returns the variant of the UUID
(src/uuid.go: Variant(uuid[8] AND 0xe0 >> 5)). -/
def UUID.Variant (u : UUID) : Nat :=
  (u.b8 &&& 0xe0) >>> 5

/-- Domain returns the domain for a Version 2 UUID
(src/uuid.go: Domain(uuid[9])). -/
def UUID.Domain (u : UUID) : Nat := u.b9

/-- ID returns the local identifier for a Version 2 UUID
(src/uuid.go: binary.BigEndian.Uint32(uuid[0:4])). -/
def UUID.ID (u : UUID) : Nat :=
  (u.b0 <<< 24) ||| (u.b1 <<< 16) ||| (u.b2 <<< 8) ||| u.b3

/-! Bit-level helper lemmas tying Go's byte operations to arithmetic. -/

set_option maxRecDepth 100000

theorem setVersion_b6_version_aux :
    ∀ b < 256, ∀ v < 16, ((((b &&& 0x0f) ||| (v <<< 4)) &&& 0xf0) >>> 4) = v := by
  decide

theorem setVersion_b6_version (b v : Nat) (hb : b < 256) (hv : v < 16) :
    ((((b &&& 0x0f) ||| (v <<< 4)) &&& 0xf0) >>> 4) = v :=
  setVersion_b6_version_aux b hb v hv

theorem setVariant_b8_variant_aux :
    ∀ b < 256, ((((b &&& 0x1f) ||| (4 <<< 5)) &&& 0xe0) >>> 5) = 4 := by
  decide

theorem setVariant_b8_hi_aux :
    ∀ b < 256, (((b &&& 0x1f) ||| (4 <<< 5)) &&& 0xe0) = 0x80 := by
  decide

theorem setVariant_b8_lt_aux :
    ∀ b < 256, ((b &&& 0x1f) ||| (4 <<< 5)) < 256 := by
  decide

theorem setVersion_b6_lt_aux :
    ∀ b < 256, ∀ v < 16, ((b &&& 0x0f) ||| (v <<< 4)) < 256 := by
  decide

/-! Text codec.  Strings are modelled as lists of byte values (ASCII
codes); all strings this code produces and all pattern literals are
ASCII, where Go's byte indexing and strings.ToLower agree with the
per-byte model below. -/

/-- Go strings.ToLower restricted to ASCII: map A-Z (65..90) to a-z. -/
def toLowerByte (b : Nat) : Nat :=
  if 65 ≤ b ∧ b ≤ 90 then b + 32 else b

/-- Hex digit character (byte code) of a value below 16; Go fmt %x
produces lowercase digits 0-9 (48..57) and a-f (97..102). -/
def hexChar (n : Nat) : Nat :=
  if n < 10 then 48 + n else 87 + n

/-- Two lowercase hex characters of one byte, high digit first. -/
def byteHex (b : Nat) : List Nat :=
  [hexChar (b / 16), hexChar (b % 16)]

/-- Go fmt %x of a byte slice: each byte as two lowercase hex chars. -/
def hexList (l : List Nat) : List Nat :=
  l.flatMap byteHex

/-- ShortString returns a hexadecimal string representation without
separators (src/uuid.go ShortString). -/
def UUID.ShortString (u : UUID) : List Nat :=
  hexList u.toList

/-- String returns a hexadecimal string representation with
standardized separators (src/uuid.go String); 45 is the hyphen. -/
def UUID.String (u : UUID) : List Nat :=
  hexList [u.b0, u.b1, u.b2, u.b3] ++ 45 ::
  hexList [u.b4, u.b5] ++ 45 ::
  hexList [u.b6, u.b7] ++ 45 ::
  hexList [u.b8, u.b9] ++ 45 ::
  hexList [u.b10, u.b11, u.b12, u.b13, u.b14, u.b15]

/-- Byte codes of the literal text urn:uuid: . -/
def urnUuidHead : List Nat :=
  [117, 114, 110, 58, 117, 117, 105, 100, 58]

/-- URN rendering: urn:uuid: followed by the canonical string. -/
def UUID.urnString (u : UUID) : List Nat :=
  urnUuidHead ++ u.String

/-- Braced rendering: left brace (123), canonical string, right brace (125). -/
def UUID.bracedString (u : UUID) : List Nat :=
  123 :: u.String ++ [125]

/-- Errors of the Parse path, mirroring the distinct fmt.Errorf sites
of src/uuid.go; the Nat arguments record the data interpolated into
the Go error message (offending index and character). -/
inductive ParseError where
  | invalidFormat : ParseError
  | tooLong : ParseError
  | noHexChar (i c : Nat) : ParseError
  | patternMismatch (i c p : Nat) : ParseError
  | noHexValue : ParseError
deriving DecidableEq, Repr

/-- Loop body of src/uuid.go parseSource: walk the lowered source
against the pattern; 120 is the pattern character x marking a hex
position; i is the current source index. -/
def parseSourceAux : List Nat → List Nat → Nat → Except ParseError (List Nat)
  | [], _, _ => .ok []
  | _ :: _, [], _ => .error .tooLong
  | b :: rest, p :: prest, i =>
    if p = 120 then
      if (b < 48 ∨ 57 < b) ∧ (b < 97 ∨ 102 < b) then
        .error (.noHexChar i b)
      else
        match parseSourceAux rest prest (i + 1) with
        | .ok hs => .ok (b :: hs)
        | .error e => .error e
    else
      if b ≠ p then .error (.patternMismatch i b p)
      else parseSourceAux rest prest (i + 1)

/-- parseSource parses a source based on the given pattern
(src/uuid.go parseSource): the source is lowercased, walked against
the pattern, and the collected hex characters are returned inside the
32-byte raw buffer (unwritten positions remain zero). -/
def parseSource (source pattern : List Nat) : Except ParseError (List Nat) :=
  match parseSourceAux (source.map toLowerByte) pattern 0 with
  | .ok hs => .ok (hs ++ List.replicate (32 - hs.length) 0)
  | .error e => .error e

/-- Pattern xxxxxxxx-xxxx-xxxx-xxxx-xxxxxxxxxxxx (36 chars). -/
def patternCanonical : List Nat :=
  List.replicate 8 120 ++ 45 :: List.replicate 4 120 ++ 45 ::
  List.replicate 4 120 ++ 45 :: List.replicate 4 120 ++ 45 ::
  List.replicate 12 120

/-- Pattern urn:uuid: followed by the canonical pattern (45 chars). -/
def patternURN : List Nat :=
  urnUuidHead ++ patternCanonical

/-- Pattern with braces around the canonical pattern (38 chars). -/
def patternBraced : List Nat :=
  123 :: patternCanonical ++ [125]

/-- Pattern of 32 hex positions (compact form). -/
def patternCompact : List Nat :=
  List.replicate 32 120

/-- Go encoding/hex fromHexChar: value of one hex character,
accepting 0-9, a-f and A-F. -/
def fromHexChar (c : Nat) : Option Nat :=
  if 48 ≤ c ∧ c ≤ 57 then some (c - 48)
  else if 97 ≤ c ∧ c ≤ 102 then some (c - 97 + 10)
  else if 65 ≤ c ∧ c ≤ 70 then some (c - 65 + 10)
  else none

/-- Go encoding/hex DecodeString: pairs of hex characters to bytes;
fails on an odd length or a non-hex character. -/
def hexDecode : List Nat → Option (List Nat)
  | [] => some []
  | [_] => none
  | a :: b :: rest =>
    match fromHexChar a, fromHexChar b with
    | some hi, some lo =>
      match hexDecode rest with
      | some ds => some (((hi <<< 4) ||| lo) :: ds)
      | none => none
    | _, _ => none

/-- Parse creates a UUID based on the given hex string
(src/uuid.go Parse): four accepted lengths select the pattern, the
extracted 32 hex characters are decoded, and the bytes are copied
into a zeroed UUID. -/
def Parse (source : List Nat) : Except ParseError UUID :=
  let step : Except ParseError (List Nat) :=
    if source.length = 36 then parseSource source patternCanonical
    else if source.length = 36 + 9 then parseSource source patternURN
    else if source.length = 36 + 2 then parseSource source patternBraced
    else if source.length = 32 then parseSource source patternCompact
    else .error .invalidFormat
  match step with
  | .error e => .error e
  | .ok hexSource =>
    match hexDecode hexSource with
    | none => .error .noHexValue
    | some hexData => .ok (listToUUID hexData)

/-- Strict lexicographic order on byte lists (the order of Go
bytes.Compare on the 16-byte values and of string comparison on the
renderings). -/
def lexLt : List Nat → List Nat → Bool
  | [], [] => false
  | [], _ :: _ => true
  | _ :: _, [] => false
  | a :: as, b :: bs => decide (a < b) || (a == b && lexLt as bs)

/-- Value of a byte list read as a big-endian base-256 number. -/
def val256 : List Nat → Nat
  | [] => 0
  | a :: t => a * 256 ^ t.length + val256 t

/-! Generators.  Effectful inputs are explicit parameters: now models
the clock reading taken by the function, r0 r1 (and rand8, rnd16) the
bytes delivered by crypto/rand, mac the cached MAC address, and the
sequencer state is threaded in and out. -/

/-- Ambient process state a generator could consult: clock readings,
entropy, and the two sequencer states.  The hash-based generators
receive it to state that their result does not depend on it. -/
structure GenEnv where
  nowNano : Nat
  nowMilli : Nat
  entropy : List Nat
  v6st : Nat × Nat
  v7st : Nat × Nat

/-- NewV1 generates a version 1 UUID (src/uuid.go NewV1); now models
uint64(time.Now().UnixNano()/100 + epoch), r0 r1 the two random
clock-sequence bytes, mac the cached MAC address. -/
def NewV1 (now r0 r1 : Nat) (mac : List Nat) : UUID :=
  let clockSeq := (r0 ||| (r1 <<< 8)) &&& 0x3fff
  let timeLow := now &&& 0xffffffff
  let timeMid := (now >>> 32) &&& 0xffff
  let timeHighVer := (now >>> 48) &&& 0x0fff
  let u : UUID :=
    { b0 := timeLow % 256, b1 := (timeLow >>> 8) % 256,
      b2 := (timeLow >>> 16) % 256, b3 := (timeLow >>> 24) % 256,
      b4 := timeMid % 256, b5 := (timeMid >>> 8) % 256,
      b6 := timeHighVer % 256, b7 := (timeHighVer >>> 8) % 256,
      b8 := clockSeq % 256, b9 := (clockSeq >>> 8) % 256,
      b10 := mac.getD 0 0, b11 := mac.getD 1 0, b12 := mac.getD 2 0,
      b13 := mac.getD 3 0, b14 := mac.getD 4 0, b15 := mac.getD 5 0 }
  (u.setVersion V1).setVariant

/-- NewV2 generates a version 2 DCE Security UUID (src/uuid.go NewV2):
a v1 UUID whose time-low field is replaced by the id (big-endian) and
whose byte 9 becomes the domain, restamped to version 2. -/
def NewV2 (domain id : Nat) (now r0 r1 : Nat) (mac : List Nat) : UUID :=
  let u := NewV1 now r0 r1 mac
  let u := { u with
    b0 := (id >>> 24) % 256, b1 := (id >>> 16) % 256,
    b2 := (id >>> 8) % 256, b3 := id % 256 }
  let u := { u with b9 := domain % 256 }
  u.setVersion V2

/-- NewV2Person (src/uuid.go): NewV2 with the Person domain and
uint32(os.Getuid()); uid models the process user id. -/
def NewV2Person (uid : Nat) (now r0 r1 : Nat) (mac : List Nat) : UUID :=
  NewV2 Person (uid % 2 ^ 32) now r0 r1 mac

/-- NewV2Group (src/uuid.go): NewV2 with the Group domain and
uint32(os.Getgid()); gid models the process group id. -/
def NewV2Group (gid : Nat) (now r0 r1 : Nat) (mac : List Nat) : UUID :=
  NewV2 Group (gid % 2 ^ 32) now r0 r1 mac

/-- NewV3 generates a version 3 UUID (src/uuid.go NewV3): the first 16
bytes of the MD5 digest of namespace bytes followed by name bytes,
stamped with version and variant.  The digest function of crypto/md5
is passed as md5; the ambient state env is not consulted. -/
def NewV3 (md5 : List Nat → List Nat) (env : GenEnv) (ns : UUID) (name : List Nat) : UUID :=
  let digest := md5 (ns.dump ++ name)
  ((listToUUID (digest.take 16)).setVersion V3).setVariant

/-- NewV4 generates a version 4 UUID (src/uuid.go NewV4): 16 random
bytes stamped with version and variant. -/
def NewV4 (rnd16 : List Nat) : UUID :=
  ((listToUUID rnd16).setVersion V4).setVariant

/-- New returns a new UUID based on the default version 4
(src/uuid.go New). -/
def New (rnd16 : List Nat) : UUID :=
  NewV4 rnd16

/-- NewV5 generates a version 5 UUID (src/uuid.go NewV5): the first 16
bytes of the SHA1 digest of namespace bytes followed by name bytes,
stamped with version and variant. -/
def NewV5 (sha1 : List Nat → List Nat) (env : GenEnv) (ns : UUID) (name : List Nat) : UUID :=
  let digest := sha1 (ns.dump ++ name)
  ((listToUUID (digest.take 16)).setVersion V5).setVariant

/-- v7State holds the state for monotonic UUID v7 generation
(src/uuid.go v7State: lastMs, lastSeq). -/
structure v7State where
  lastMs : Nat
  lastSeq : Nat
deriving DecidableEq, Repr

/-- v6State holds the state for monotonic UUID v6 generation
(src/uuid.go v6State: lastTime, lastClockSeq). -/
structure v6State where
  lastTime : Nat
  lastClockSeq : Nat
deriving DecidableEq, Repr

/-- getV7Time (src/uuid.go): returns milliseconds, sequence number and
the updated generator state.  now models time.Now().UnixMilli();
waitNow models the clock reading with which the overflow busy-wait
loop exits (the loop guarantees waitNow > now); r0 r1 model the two
random bytes read in the new-millisecond branch
(binary.BigEndian.Uint16 of them, masked to 12 bits). -/
def getV7Time (s : v7State) (now waitNow r0 r1 : Nat) : Nat × Nat × v7State :=
  if now = s.lastMs then
    if s.lastSeq = 0x0FFF then
      (waitNow, 0, ⟨waitNow, 0⟩)
    else
      (now, s.lastSeq + 1, ⟨s.lastMs, s.lastSeq + 1⟩)
  else if s.lastMs < now then
    let seq := ((r0 <<< 8) ||| r1) &&& 0x0FFF
    (now, seq, ⟨now, seq⟩)
  else
    if s.lastSeq = 0x0FFF then
      (s.lastMs + 1, 0, ⟨s.lastMs + 1, 0⟩)
    else
      (s.lastMs, s.lastSeq + 1, ⟨s.lastMs, s.lastSeq + 1⟩)

/-- getV6ClockSeq (src/uuid.go): returns the adjusted timestamp, clock
sequence, and updated state.  timestamp is the caller's 100ns tick;
waitT models the reading with which the overflow busy-wait loop exits
(the loop runs while the reading equals lastTime, so waitT differs
from lastTime); r0 r1 model the two random bytes.  Note that in the
overflow branch the source does not write lastTime. -/
def getV6ClockSeq (s : v6State) (timestamp waitT r0 r1 : Nat) : Nat × Nat × v6State :=
  if timestamp = s.lastTime then
    if s.lastClockSeq = 0x3FFF then
      let cs := ((r0 <<< 8) ||| r1) &&& 0x3FFF
      (waitT, cs, ⟨s.lastTime, cs⟩)
    else
      (timestamp, s.lastClockSeq + 1, ⟨s.lastTime, s.lastClockSeq + 1⟩)
  else if s.lastTime < timestamp then
    let cs := ((r0 <<< 8) ||| r1) &&& 0x3FFF
    (timestamp, cs, ⟨timestamp, cs⟩)
  else
    if s.lastClockSeq = 0x3FFF then
      (s.lastTime + 1, 0, ⟨s.lastTime + 1, 0⟩)
    else
      (s.lastTime, s.lastClockSeq + 1, ⟨s.lastTime, s.lastClockSeq + 1⟩)

/-- Byte assembly of NewV6 (src/uuid.go NewV6 after the sequencer
call): big-endian field placement of the reordered timestamp, the
clock sequence and the MAC address, stamped with version and variant. -/
def v6Bytes (adjustedNow clockSeq : Nat) (mac : List Nat) : UUID :=
  let timeHigh := (adjustedNow >>> 28) &&& 0xffffffff
  let timeMid := (adjustedNow >>> 12) &&& 0xffff
  let timeLow := adjustedNow &&& 0x0fff
  let u : UUID :=
    { b0 := (timeHigh >>> 24) % 256, b1 := (timeHigh >>> 16) % 256,
      b2 := (timeHigh >>> 8) % 256, b3 := timeHigh % 256,
      b4 := (timeMid >>> 8) % 256, b5 := timeMid % 256,
      b6 := (timeLow >>> 8) % 256, b7 := timeLow % 256,
      b8 := (clockSeq >>> 8) % 256, b9 := clockSeq % 256,
      b10 := mac.getD 0 0, b11 := mac.getD 1 0, b12 := mac.getD 2 0,
      b13 := mac.getD 3 0, b14 := mac.getD 4 0, b15 := mac.getD 5 0 }
  (u.setVersion V6).setVariant

/-- NewV6 generates a version 6 UUID (src/uuid.go NewV6): the
sequencer output assembled by v6Bytes, returned with the new state. -/
def NewV6 (s : v6State) (now waitT r0 r1 : Nat) (mac : List Nat) : UUID × v6State :=
  let r := getV6ClockSeq s now waitT r0 r1
  (v6Bytes r.1 r.2.1 mac, r.2.2)

/-- Byte assembly of NewV7 (src/uuid.go NewV7 after the sequencer
call): 48-bit big-endian milliseconds, 16 bits of sequence, 8 random
bytes, stamped with version and variant. -/
def v7Bytes (ms seq : Nat) (rand8 : List Nat) : UUID :=
  let u : UUID :=
    { b0 := (ms >>> 40) % 256, b1 := (ms >>> 32) % 256,
      b2 := (ms >>> 24) % 256, b3 := (ms >>> 16) % 256,
      b4 := (ms >>> 8) % 256, b5 := ms % 256,
      b6 := (seq >>> 8) % 256, b7 := seq % 256,
      b8 := rand8.getD 0 0, b9 := rand8.getD 1 0, b10 := rand8.getD 2 0,
      b11 := rand8.getD 3 0, b12 := rand8.getD 4 0, b13 := rand8.getD 5 0,
      b14 := rand8.getD 6 0, b15 := rand8.getD 7 0 }
  (u.setVersion V7).setVariant

/-- NewV7 generates a version 7 UUID (src/uuid.go NewV7): the
sequencer output assembled by v7Bytes, returned with the new state. -/
def NewV7 (s : v7State) (now waitNow r0 r1 : Nat) (rand8 : List Nat) : UUID × v7State :=
  let r := getV7Time s now waitNow r0 r1
  (v7Bytes r.1 r.2.1 rand8, r.2.2)

/-! Arithmetic bridges from Go's bitwise operations to + , / and %. -/

theorem lor_shift_add (A B i : Nat) (h : B < 2 ^ i) :
    (A <<< i) ||| B = A * 2 ^ i + B := by
  rw [Nat.shiftLeft_eq]
  rw [show A * 2 ^ i = 2 ^ i * A from Nat.mul_comm _ _]
  exact (Nat.mul_add_lt_is_or h A).symm

theorem and_0x0f (x : Nat) : x &&& 0x0f = x % 16 := by
  simpa using Nat.and_pow_two_sub_one_eq_mod x 4

theorem and_0x1f (x : Nat) : x &&& 0x1f = x % 32 := by
  simpa using Nat.and_pow_two_sub_one_eq_mod x 5

theorem and_0x0fff (x : Nat) : x &&& 0x0fff = x % 4096 := by
  simpa using Nat.and_pow_two_sub_one_eq_mod x 12

theorem and_0x3fff (x : Nat) : x &&& 0x3fff = x % 16384 := by
  simpa using Nat.and_pow_two_sub_one_eq_mod x 14

theorem and_0xffff (x : Nat) : x &&& 0xffff = x % 65536 := by
  simpa using Nat.and_pow_two_sub_one_eq_mod x 16

theorem and_0xffffffff (x : Nat) : x &&& 0xffffffff = x % 4294967296 := by
  simpa using Nat.and_pow_two_sub_one_eq_mod x 32

theorem getD_lt_256 (l : List Nat) (i : Nat) (h : ∀ c ∈ l, c < 256) :
    l.getD i 0 < 256 := by
  rw [List.getD_eq_getElem?_getD]
  cases hx : l[i]? with
  | none => simp
  | some c => simpa using h c (List.getElem?_mem hx)

/-- Strict order on (coarse time, counter) pairs: the natural field
ordering of the sequencer outputs. -/
def pairLt (a b : Nat × Nat) : Prop :=
  a.1 < b.1 ∨ (a.1 = b.1 ∧ a.2 < b.2)

instance (a b : Nat × Nat) : Decidable (pairLt a b) := by
  unfold pairLt; infer_instance

/-! Additional small helper lemmas. -/

theorem lor_shift_add8 (A B : Nat) (h : B < 256) :
    (A <<< 8) ||| B = A * 256 + B := by
  simpa using lor_shift_add A B 8 (by simpa using h)

theorem lor_shift_add16 (A B : Nat) (h : B < 65536) :
    (A <<< 16) ||| B = A * 65536 + B := by
  simpa using lor_shift_add A B 16 (by simpa using h)

theorem lor_shift_add24 (A B : Nat) (h : B < 16777216) :
    (A <<< 24) ||| B = A * 16777216 + B := by
  simpa using lor_shift_add A B 24 (by simpa using h)

theorem mod256_lt (x : Nat) : x % 256 < 256 :=
  Nat.mod_lt _ (by norm_num)

theorem toList_inj (u v : UUID) (h : u.toList = v.toList) : u = v := by
  cases u; cases v
  simpa [UUID.toList, UUID.mk.injEq] using h

theorem setVersion_Version (u : UUID) (v : Nat) (h6 : u.b6 < 256) (hv : v < 16) :
    (u.setVersion v).Version = v := by
  simp only [UUID.setVersion, UUID.Version]
  exact setVersion_b6_version_aux _ h6 _ hv

theorem stamped_Version (u : UUID) (v : Nat) (h6 : u.b6 < 256) (hv : v < 16) :
    ((u.setVersion v).setVariant).Version = v := by
  simp only [UUID.setVersion, UUID.setVariant, UUID.Version]
  exact setVersion_b6_version_aux _ h6 _ hv

theorem stamped_Variant (u : UUID) (v : Nat) (h8 : u.b8 < 256) :
    ((u.setVersion v).setVariant).Variant = 4 := by
  simp only [UUID.setVersion, UUID.setVariant, UUID.Variant, VariantRFC4122]
  exact setVariant_b8_variant_aux _ h8

theorem variant_raw_aux : ∀ b < 256, ((b &&& 0xe0) >>> 5) = b >>> 5 := by
  decide

theorem variant_raw_lt_aux : ∀ b < 256, ((b &&& 0xe0) >>> 5) < 8 := by
  decide

/-- C3: on same-tick counter overflow both sequencers wait for the
clock to move and emit the fresh tick, but recover differently: the
v7 sequencer restarts its counter at 0 for the new millisecond, the
v6 sequencer draws a fresh random counter masked to 14 bits. -/
theorem overflow_recovery (s7 : v7State) (s6 : v6State)
    (now waitNow ts waitT r0 r1 q0 q1 : Nat)
    (h7s : s7.lastSeq = 0x0FFF) (h7t : now = s7.lastMs) (h7w : now < waitNow)
    (h6s : s6.lastClockSeq = 0x3FFF) (h6t : ts = s6.lastTime) (h6w : waitT ≠ s6.lastTime) :
    getV7Time s7 now waitNow r0 r1 = (waitNow, 0, ⟨waitNow, 0⟩) ∧
    getV6ClockSeq s6 ts waitT q0 q1 =
      (waitT, ((q0 <<< 8) ||| q1) &&& 0x3FFF,
        ⟨s6.lastTime, ((q0 <<< 8) ||| q1) &&& 0x3FFF⟩) := by
  constructor
  · simp [getV7Time, h7t, h7s]
  · simp [getV6ClockSeq, h6t, h6s]

/-- Witness for overflow_recovery at concrete inputs. -/
theorem overflow_recovery_witness :
    getV7Time ⟨5, 0x0FFF⟩ 5 6 0 0 = (6, 0, ⟨6, 0⟩) ∧
    getV6ClockSeq ⟨7, 0x3FFF⟩ 7 8 0 9 = (8, 9, ⟨7, 9⟩) := by
  have h := overflow_recovery ⟨5, 0x0FFF⟩ ⟨7, 0x3FFF⟩ 5 6 7 8 0 0 0 9
    rfl rfl (by decide) rfl rfl (by decide)
  simpa using h

/-- C7: the hash-based generators are pure functions of the digest
function and the (namespace, name) bytes: the ambient process state
(clock, entropy, sequencer states) does not influence the result, and
byte-identical arguments give byte-identical identifiers. -/
theorem NewV3_NewV5_pure (md5 sha1 : List Nat → List Nat)
    (env env' : GenEnv) (ns ns2 : UUID) (name name2 : List Nat)
    (hns : ns.toList = ns2.toList) (hname : name = name2) :
    NewV3 md5 env ns name = NewV3 md5 env' ns2 name2 ∧
    NewV5 sha1 env ns name = NewV5 sha1 env' ns2 name2 := by
  have h : ns = ns2 := toList_inj _ _ hns
  subst h; subst hname
  exact ⟨rfl, rfl⟩

/-- Witness for NewV3_NewV5_pure at concrete inputs. -/
theorem NewV3_NewV5_pure_witness :
    NewV3 (fun l => l) ⟨0, 0, [], (0, 0), (0, 0)⟩ UUID.zero [1, 2] =
      NewV3 (fun l => l) ⟨3, 4, [5], (6, 7), (8, 9)⟩ UUID.zero [1, 2] ∧
    NewV5 (fun l => l) ⟨0, 0, [], (0, 0), (0, 0)⟩ UUID.zero [1, 2] =
      NewV5 (fun l => l) ⟨3, 4, [5], (6, 7), (8, 9)⟩ UUID.zero [1, 2] :=
  NewV3_NewV5_pure (fun l => l) (fun l => l)
    ⟨0, 0, [], (0, 0), (0, 0)⟩ ⟨3, 4, [5], (6, 7), (8, 9)⟩
    UUID.zero UUID.zero [1, 2] [1, 2] rfl rfl

/-- C10: the version 2 accessors invert the embedding: a NewV2 result
returns the embedded id, the embedded domain, and version 2. -/
theorem NewV2_roundtrip (dom idv now r0 r1 : Nat) (mac : List Nat)
    (hid : idv < 2 ^ 32) (hd : dom < 256) :
    (NewV2 dom idv now r0 r1 mac).ID = idv ∧
    (NewV2 dom idv now r0 r1 mac).Domain = dom ∧
    (NewV2 dom idv now r0 r1 mac).Version = 2 := by
  refine ⟨?_, ?_, ?_⟩
  · show ((((idv >>> 24) % 256) <<< 24 ||| ((idv >>> 16) % 256) <<< 16) |||
        ((idv >>> 8) % 256) <<< 8) ||| idv % 256 = idv
    rw [Nat.or_assoc, Nat.or_assoc]
    rw [lor_shift_add8 _ _ (mod256_lt _)]
    rw [lor_shift_add16 _ _ (by
      have := mod256_lt ((idv >>> 8))
      have h2 := mod256_lt idv
      omega)]
    rw [lor_shift_add24 _ _ (by
      have := mod256_lt (idv >>> 16)
      have h2 := mod256_lt (idv >>> 8)
      have h3 := mod256_lt idv
      omega)]
    simp only [Nat.shiftRight_eq_div_pow]
    norm_num
    omega
  · show dom % 256 = dom
    exact Nat.mod_eq_of_lt hd
  · show ((((((now >>> 48) &&& 0x0fff) % 256) &&& 0x0f ||| V1 <<< 4) &&& 0x0f |||
        V2 <<< 4) &&& 0xf0) >>> 4 = 2
    exact setVersion_b6_version_aux _
      (setVersion_b6_lt_aux _ (mod256_lt _) _ (by decide)) _ (by decide)

/-- Witness for NewV2_roundtrip at concrete inputs. -/
theorem NewV2_roundtrip_witness :
    (NewV2 2 123456 77 1 2 [1, 2, 3, 4, 5, 6]).ID = 123456 ∧
    (NewV2 2 123456 77 1 2 [1, 2, 3, 4, 5, 6]).Domain = 2 ∧
    (NewV2 2 123456 77 1 2 [1, 2, 3, 4, 5, 6]).Version = 2 :=
  NewV2_roundtrip 2 123456 77 1 2 [1, 2, 3, 4, 5, 6] (by norm_num) (by norm_num)

/-- C8 counterexample: a structurally valid foreign identifier whose
byte 8 is 0x20 parses fine, and Variant returns 1, which is none of
the four named variant constants. -/
theorem Variant_foreign_value :
    Parse (List.replicate 16 48 ++ [50, 48] ++ List.replicate 14 48) =
      .ok ⟨0, 0, 0, 0, 0, 0, 0, 0, 32, 0, 0, 0, 0, 0, 0, 0⟩ ∧
    UUID.Variant ⟨0, 0, 0, 0, 0, 0, 0, 0, 32, 0, 0, 0, 0, 0, 0, 0⟩ = 1 ∧
    (1 : Nat) ≠ VariantNCS ∧ (1 : Nat) ≠ VariantRFC4122 ∧
    (1 : Nat) ≠ VariantMicrosoft ∧ (1 : Nat) ≠ VariantFuture := by
  exact ⟨rfl, rfl, by decide, by decide, by decide, by decide⟩

/-- C8 amended: Variant returns the raw top three bits of byte 8, a
value in 0..7; it does not collapse the RFC variant families to the
four named constants, so foreign identifiers may yield 1, 2, 3 or 5. -/
theorem Variant_top3 (u : UUID) (h : u.Wf) :
    u.Variant = u.b8 >>> 5 ∧ u.Variant < 8 := by
  obtain ⟨-, -, -, -, -, -, -, -, h8, -⟩ := h
  exact ⟨variant_raw_aux _ h8, variant_raw_lt_aux _ h8⟩

/-- Witness for Variant_top3 at the parsed foreign identifier. -/
theorem Variant_top3_witness :
    UUID.Wf ⟨0, 0, 0, 0, 0, 0, 0, 0, 32, 0, 0, 0, 0, 0, 0, 0⟩ ∧
    (UUID.Variant ⟨0, 0, 0, 0, 0, 0, 0, 0, 32, 0, 0, 0, 0, 0, 0, 0⟩ =
        UUID.b8 ⟨0, 0, 0, 0, 0, 0, 0, 0, 32, 0, 0, 0, 0, 0, 0, 0⟩ >>> 5 ∧
      UUID.Variant ⟨0, 0, 0, 0, 0, 0, 0, 0, 32, 0, 0, 0, 0, 0, 0, 0⟩ < 8) :=
  ⟨by decide, Variant_top3 ⟨0, 0, 0, 0, 0, 0, 0, 0, 32, 0, 0, 0, 0, 0, 0, 0⟩ (by decide)⟩

/-- C2 failing trace: the v6 sequencer is not monotonic.  With state
(100, 0x3FFF), a call at tick 100 overflows, waits until the clock
reads 101 and emits (101, 5) with random counter 5 -- but the stored
lastTime stays 100.  The next call at tick 101 therefore takes the
new-timestamp branch and emits (101, 3) with random counter 3, which
is not greater than (101, 5); the corresponding v6 identifiers are
strictly decreasing in byte order.  Independently, a same-tick
counter step from 0x1FFF to 0x2000 decreases the identifier bytes
because setVariant overwrites bit 13 of the clock sequence. -/
theorem getV6_nonmonotonic_trace :
    getV6ClockSeq ⟨100, 0x3FFF⟩ 100 101 0 5 = (101, 5, ⟨100, 5⟩) ∧
    getV6ClockSeq ⟨100, 5⟩ 101 0 0 3 = (101, 3, ⟨101, 3⟩) ∧
    ¬ pairLt (101, 5) (101, 3) ∧
    lexLt (v6Bytes 101 3 [1, 2, 3, 4, 5, 6]).toList
      (v6Bytes 101 5 [1, 2, 3, 4, 5, 6]).toList = true ∧
    getV6ClockSeq ⟨100, 0x1FFF⟩ 100 0 0 0 = (100, 0x2000, ⟨100, 0x2000⟩) ∧
    lexLt (v6Bytes 100 0x2000 [1, 2, 3, 4, 5, 6]).toList
      (v6Bytes 100 0x1FFF [1, 2, 3, 4, 5, 6]).toList = true := by
  exact ⟨rfl, rfl, by decide, rfl, rfl, rfl⟩

/-- C9 counterexample: for version 1 it is not the low 13 of the 14
clock-sequence bits that reach the output: the drawn clock sequences
0xE0 and 0 differ in bits 5..7 (all below bit 13), yet they produce
the same identifier, because the little-endian layout puts the low
clock-sequence byte into byte 8 where setVariant overwrites its top
three bits. -/
theorem NewV1_low13_lost :
    NewV1 0 0xE0 0 [1, 2, 3, 4, 5, 6] = NewV1 0 0 0 [1, 2, 3, 4, 5, 6] ∧
    ((0xE0 ||| (0 <<< 8)) &&& 0x3fff : Nat) = 0xE0 ∧
    (0xE0 : Nat) ≠ 0 ∧ (0xE0 : Nat) < 2 ^ 13 := by
  exact ⟨rfl, rfl, by decide, by decide⟩

/-- C6: every generator's result carries that generator's version
number (4 for New) and variant VariantRFC4122 = 4. -/
theorem generators_version_variant
    (now r0 r1 uid gid dom idv waitT waitNow ts : Nat)
    (mac rnd16 rand8 name : List Nat)
    (md5 sha1 : List Nat → List Nat) (env : GenEnv) (ns : UUID)
    (s6 : v6State) (s7 : v7State)
    (h16 : ∀ c ∈ rnd16, c < 256)
    (hmd : ∀ c ∈ md5 (ns.dump ++ name), c < 256)
    (hsh : ∀ c ∈ sha1 (ns.dump ++ name), c < 256)
    (h8 : ∀ c ∈ rand8, c < 256) :
    ((New rnd16).Version = V4 ∧ (New rnd16).Variant = VariantRFC4122) ∧
    ((NewV1 now r0 r1 mac).Version = V1 ∧
      (NewV1 now r0 r1 mac).Variant = VariantRFC4122) ∧
    ((NewV2 dom idv now r0 r1 mac).Version = V2 ∧
      (NewV2 dom idv now r0 r1 mac).Variant = VariantRFC4122) ∧
    ((NewV2Person uid now r0 r1 mac).Version = V2 ∧
      (NewV2Person uid now r0 r1 mac).Variant = VariantRFC4122) ∧
    ((NewV2Group gid now r0 r1 mac).Version = V2 ∧
      (NewV2Group gid now r0 r1 mac).Variant = VariantRFC4122) ∧
    ((NewV3 md5 env ns name).Version = V3 ∧
      (NewV3 md5 env ns name).Variant = VariantRFC4122) ∧
    ((NewV4 rnd16).Version = V4 ∧ (NewV4 rnd16).Variant = VariantRFC4122) ∧
    ((NewV5 sha1 env ns name).Version = V5 ∧
      (NewV5 sha1 env ns name).Variant = VariantRFC4122) ∧
    ((NewV6 s6 ts waitT r0 r1 mac).1.Version = V6 ∧
      (NewV6 s6 ts waitT r0 r1 mac).1.Variant = VariantRFC4122) ∧
    ((NewV7 s7 now waitNow r0 r1 rand8).1.Version = V7 ∧
      (NewV7 s7 now waitNow r0 r1 rand8).1.Variant = VariantRFC4122) := by
  have hmd' : ∀ c ∈ (md5 (ns.dump ++ name)).take 16, c < 256 :=
    fun c hc => hmd c (List.mem_of_mem_take hc)
  have hsh' : ∀ c ∈ (sha1 (ns.dump ++ name)).take 16, c < 256 :=
    fun c hc => hsh c (List.mem_of_mem_take hc)
  refine ⟨⟨?_, ?_⟩, ⟨?_, ?_⟩, ⟨?_, ?_⟩, ⟨?_, ?_⟩, ⟨?_, ?_⟩,
    ⟨?_, ?_⟩, ⟨?_, ?_⟩, ⟨?_, ?_⟩, ⟨?_, ?_⟩, ⟨?_, ?_⟩⟩
  · exact stamped_Version _ _ (getD_lt_256 _ _ h16) (by decide)
  · exact stamped_Variant _ _ (getD_lt_256 _ _ h16)
  · exact stamped_Version _ _ (mod256_lt _) (by decide)
  · exact stamped_Variant _ _ (mod256_lt _)
  · exact setVersion_b6_version_aux _
      (setVersion_b6_lt_aux _ (mod256_lt _) _ (by decide)) _ (by decide)
  · exact setVariant_b8_variant_aux _ (mod256_lt _)
  · exact setVersion_b6_version_aux _
      (setVersion_b6_lt_aux _ (mod256_lt _) _ (by decide)) _ (by decide)
  · exact setVariant_b8_variant_aux _ (mod256_lt _)
  · exact setVersion_b6_version_aux _
      (setVersion_b6_lt_aux _ (mod256_lt _) _ (by decide)) _ (by decide)
  · exact setVariant_b8_variant_aux _ (mod256_lt _)
  · exact stamped_Version _ _ (getD_lt_256 _ _ hmd') (by decide)
  · exact stamped_Variant _ _ (getD_lt_256 _ _ hmd')
  · exact stamped_Version _ _ (getD_lt_256 _ _ h16) (by decide)
  · exact stamped_Variant _ _ (getD_lt_256 _ _ h16)
  · exact stamped_Version _ _ (getD_lt_256 _ _ hsh') (by decide)
  · exact stamped_Variant _ _ (getD_lt_256 _ _ hsh')
  · exact stamped_Version _ _ (mod256_lt _) (by decide)
  · exact stamped_Variant _ _ (mod256_lt _)
  · exact stamped_Version _ _ (mod256_lt _) (by decide)
  · exact stamped_Variant _ _ (getD_lt_256 _ _ h8)

/-- Witness for generators_version_variant at concrete inputs. -/
theorem generators_version_variant_witness :
    (New [0, 1, 2, 3, 4, 5, 6, 7, 8, 9, 10, 11, 12, 13, 14, 15]).Version = V4 ∧
    (NewV7 ⟨0, 0⟩ 5 6 7 8 [1, 2, 3, 4, 5, 6, 7, 8]).1.Variant = VariantRFC4122 := by
  have h := generators_version_variant 5 7 8 1 2 3 4 9 6 11
    [1, 2, 3, 4, 5, 6] [0, 1, 2, 3, 4, 5, 6, 7, 8, 9, 10, 11, 12, 13, 14, 15]
    [1, 2, 3, 4, 5, 6, 7, 8] [9, 9]
    (fun _ => [7, 7]) (fun _ => [8, 8]) ⟨0, 0, [], (0, 0), (0, 0)⟩ UUID.zero
    ⟨0, 0⟩ ⟨0, 0⟩ (by decide) (by decide) (by decide) (by decide)
  exact ⟨h.1.1, h.2.2.2.2.2.2.2.2.2.2⟩

/-- C9 amended: every generated identifier has its byte 8 top three
bits equal to binary 100 (byte8 AND 0xE0 = 0x80), so bit 66 is zero.
Consequently, for version 6 the clock-sequence bit 13 is lost (the
output depends only on the low 13 bits), for version 1 bits 5..7 of
the clock sequence are lost (the low random byte matters only mod
32), and for version 7 the top three bits of the first random tail
byte are lost, leaving 61 free random bits. -/
theorem setVariant_loses_top3
    (now r0 r1 uid gid dom idv waitT waitNow ts ms seq t cs r : Nat)
    (mac rnd16 rand8 name rest : List Nat)
    (md5 sha1 : List Nat → List Nat) (env : GenEnv) (ns : UUID)
    (s6 : v6State) (s7 : v7State)
    (h16 : ∀ c ∈ rnd16, c < 256)
    (hmd : ∀ c ∈ md5 (ns.dump ++ name), c < 256)
    (hsh : ∀ c ∈ sha1 (ns.dump ++ name), c < 256)
    (h8 : ∀ c ∈ rand8, c < 256)
    (hr0 : r0 < 256) (hr1 : r1 < 256) (hcs : cs < 16384) (hr : r < 256) :
    (New rnd16).b8 &&& 0xe0 = 0x80 ∧
    (NewV1 now r0 r1 mac).b8 &&& 0xe0 = 0x80 ∧
    (NewV2 dom idv now r0 r1 mac).b8 &&& 0xe0 = 0x80 ∧
    (NewV2Person uid now r0 r1 mac).b8 &&& 0xe0 = 0x80 ∧
    (NewV2Group gid now r0 r1 mac).b8 &&& 0xe0 = 0x80 ∧
    (NewV3 md5 env ns name).b8 &&& 0xe0 = 0x80 ∧
    (NewV4 rnd16).b8 &&& 0xe0 = 0x80 ∧
    (NewV5 sha1 env ns name).b8 &&& 0xe0 = 0x80 ∧
    (NewV6 s6 ts waitT r0 r1 mac).1.b8 &&& 0xe0 = 0x80 ∧
    (NewV7 s7 now waitNow r0 r1 rand8).1.b8 &&& 0xe0 = 0x80 ∧
    NewV1 now r0 r1 mac = NewV1 now (r0 % 32) r1 mac ∧
    v6Bytes t cs mac = v6Bytes t (cs % 8192) mac ∧
    v7Bytes ms seq (r :: rest) = v7Bytes ms seq (r % 32 :: rest) := by
  have hmd' : ∀ c ∈ (md5 (ns.dump ++ name)).take 16, c < 256 :=
    fun c hc => hmd c (List.mem_of_mem_take hc)
  have hsh' : ∀ c ∈ (sha1 (ns.dump ++ name)).take 16, c < 256 :=
    fun c hc => hsh c (List.mem_of_mem_take hc)
  refine ⟨setVariant_b8_hi_aux _ (getD_lt_256 _ _ h16),
    setVariant_b8_hi_aux _ (mod256_lt _),
    setVariant_b8_hi_aux _ (mod256_lt _),
    setVariant_b8_hi_aux _ (mod256_lt _),
    setVariant_b8_hi_aux _ (mod256_lt _),
    setVariant_b8_hi_aux _ (getD_lt_256 _ _ hmd'),
    setVariant_b8_hi_aux _ (getD_lt_256 _ _ h16),
    setVariant_b8_hi_aux _ (getD_lt_256 _ _ hsh'),
    setVariant_b8_hi_aux _ (mod256_lt _),
    setVariant_b8_hi_aux _ (getD_lt_256 _ _ h8), ?_, ?_, ?_⟩
  · simp only [NewV1, UUID.setVersion, UUID.setVariant]
    rw [Nat.or_comm r0 (r1 <<< 8), Nat.or_comm (r0 % 32) (r1 <<< 8),
      lor_shift_add8 r1 r0 hr0, lor_shift_add8 r1 (r0 % 32) (by omega),
      and_0x3fff, and_0x3fff]
    congr 1
    · rw [and_0x1f, and_0x1f]
      congr 1
      omega
    · simp only [Nat.shiftRight_eq_div_pow]
      norm_num
      omega
  · simp only [v6Bytes, UUID.setVersion, UUID.setVariant]
    congr 1
    · rw [and_0x1f, and_0x1f]
      congr 1
      simp only [Nat.shiftRight_eq_div_pow]
      norm_num
      omega
    · omega
  · simp only [v7Bytes, UUID.setVersion, UUID.setVariant,
      List.getD_cons_zero, List.getD_cons_succ]
    congr 1
    rw [and_0x1f, and_0x1f]
    congr 1
    omega

/-- Witness for setVariant_loses_top3 at concrete inputs. -/
theorem setVariant_loses_top3_witness :
    (NewV1 5 200 7 [1, 2, 3, 4, 5, 6]).b8 &&& 0xe0 = 0x80 ∧
    NewV1 5 200 7 [1, 2, 3, 4, 5, 6] = NewV1 5 (200 % 32) 7 [1, 2, 3, 4, 5, 6] := by
  have h := setVariant_loses_top3 5 200 7 1 2 3 4 9 6 11 12 13 14 9000 200
    [1, 2, 3, 4, 5, 6] [0, 1, 2, 3, 4, 5, 6, 7, 8, 9, 10, 11, 12, 13, 14, 15]
    [1, 2, 3, 4, 5, 6, 7, 8] [9, 9] [4, 4]
    (fun _ => [7, 7]) (fun _ => [8, 8]) ⟨0, 0, [], (0, 0), (0, 0)⟩ UUID.zero
    ⟨0, 0⟩ ⟨0, 0⟩ (by decide) (by decide) (by decide) (by decide)
    (by decide) (by decide) (by decide) (by decide)
  exact ⟨h.2.1, h.2.2.2.2.2.2.2.2.2.2.1⟩

/-! Machinery for the v7 monotonicity claim: big-endian value of byte
lists, its correspondence with lexicographic order, and the value of
an assembled v7 identifier. -/

theorem val256_append : ∀ l1 l2 : List Nat,
    val256 (l1 ++ l2) = val256 l1 * 256 ^ l2.length + val256 l2
  | [], l2 => by simp [val256]
  | a :: t, l2 => by
    simp only [List.cons_append, val256, val256_append t l2,
      List.append_eq, List.length_append, pow_add]
    ring

theorem val256_lt : ∀ l : List Nat, (∀ x ∈ l, x < 256) →
    val256 l < 256 ^ l.length
  | [], _ => by simp [val256]
  | a :: t, h => by
    have ha : a < 256 := h a (by simp)
    have ht := val256_lt t (fun x hx => h x (by simp [hx]))
    simp only [val256, List.length_cons, pow_succ]
    calc a * 256 ^ t.length + val256 t
        < a * 256 ^ t.length + 256 ^ t.length := by omega
      _ = (a + 1) * 256 ^ t.length := by ring
      _ ≤ 256 * 256 ^ t.length := Nat.mul_le_mul_right _ (by omega)
      _ = 256 ^ t.length * 256 := by ring

theorem lexLt_eq_true_iff : ∀ l1 l2 : List Nat, l1.length = l2.length →
    (∀ x ∈ l1, x < 256) → (∀ x ∈ l2, x < 256) →
    (lexLt l1 l2 = true ↔ val256 l1 < val256 l2)
  | [], [], _, _, _ => by simp [lexLt, val256]
  | [], _ :: _, h, _, _ => by simp at h
  | _ :: _, [], h, _, _ => by simp at h
  | a :: t1, b :: t2, h, h1, h2 => by
    have hlen : t1.length = t2.length := by simpa using h
    have ih := lexLt_eq_true_iff t1 t2 hlen
      (fun x hx => h1 x (by simp [hx])) (fun x hx => h2 x (by simp [hx]))
    have hv1 : val256 t1 < 256 ^ t2.length := by
      have := val256_lt t1 (fun x hx => h1 x (by simp [hx]))
      rwa [hlen] at this
    have hv2 : val256 t2 < 256 ^ t2.length :=
      val256_lt t2 (fun x hx => h2 x (by simp [hx]))
    simp only [lexLt, val256, Bool.or_eq_true, decide_eq_true_eq,
      Bool.and_eq_true, beq_iff_eq, hlen]
    constructor
    · rintro (hab | ⟨rfl, htail⟩)
      · calc a * 256 ^ t2.length + val256 t1
            < a * 256 ^ t2.length + 256 ^ t2.length := by omega
          _ = (a + 1) * 256 ^ t2.length := by ring
          _ ≤ b * 256 ^ t2.length := Nat.mul_le_mul_right _ (by omega)
          _ ≤ b * 256 ^ t2.length + val256 t2 := Nat.le_add_right _ _
      · exact Nat.add_lt_add_left (ih.mp htail) _
    · intro hlt
      by_cases hab : a < b
      · exact Or.inl hab
      · have hba : a = b ∨ b < a := by omega
        rcases hba with rfl | hba
        · exact Or.inr ⟨rfl, ih.mpr (Nat.lt_of_add_lt_add_left hlt)⟩
        · exfalso
          have : b * 256 ^ t2.length + val256 t2
              < a * 256 ^ t2.length + val256 t1 :=
            calc b * 256 ^ t2.length + val256 t2
                < b * 256 ^ t2.length + 256 ^ t2.length := by omega
              _ = (b + 1) * 256 ^ t2.length := by ring
              _ ≤ a * 256 ^ t2.length := Nat.mul_le_mul_right _ (by omega)
              _ ≤ a * 256 ^ t2.length + val256 t1 := Nat.le_add_right _ _
          omega

theorem Wf_mem (u : UUID) (h : u.Wf) : ∀ x ∈ u.toList, x < 256 := by
  obtain ⟨h0, h1, h2, h3, h4, h5, h6, h7, h8, h9, h10, h11, h12, h13, h14, h15⟩ := h
  intro x hx
  simp only [UUID.toList, List.mem_cons, List.not_mem_nil, or_false] at hx
  rcases hx with rfl | rfl | rfl | rfl | rfl | rfl | rfl | rfl | rfl | rfl |
    rfl | rfl | rfl | rfl | rfl | rfl <;> assumption

theorem v7Bytes_wf (ms seq : Nat) (rand8 : List Nat)
    (hr : ∀ c ∈ rand8, c < 256) : (v7Bytes ms seq rand8).Wf := by
  refine ⟨mod256_lt _, mod256_lt _, mod256_lt _, mod256_lt _, mod256_lt _,
    mod256_lt _, ?_, mod256_lt _, ?_, ?_, ?_, ?_, ?_, ?_, ?_, ?_⟩
  · exact setVersion_b6_lt_aux _ (mod256_lt _) _ (by decide)
  · exact setVariant_b8_lt_aux _ (getD_lt_256 _ _ hr)
  all_goals exact getD_lt_256 _ _ hr

theorem val6_ms (ms : Nat) (h : ms < 2 ^ 48) :
    val256 [(ms >>> 40) % 256, (ms >>> 32) % 256, (ms >>> 24) % 256,
      (ms >>> 16) % 256, (ms >>> 8) % 256, ms % 256] = ms := by
  simp only [val256, Nat.shiftRight_eq_div_pow, List.length_cons,
    List.length_nil]
  norm_num
  omega

theorem v7Bytes_val (ms seq : Nat) (rand8 : List Nat)
    (hm : ms < 2 ^ 48) (hq : seq ≤ 4095) (hr : ∀ c ∈ rand8, c < 256) :
    ∃ T, T < 2 ^ 64 ∧
      val256 (v7Bytes ms seq rand8).toList =
        ms * 2 ^ 80 + 112 * 2 ^ 72 + seq * 2 ^ 64 + T := by
  have hb6 : (((seq >>> 8) % 256) &&& 0x0f) ||| (V7 <<< 4) = 112 + seq / 256 := by
    rw [and_0x0f, Nat.or_comm,
      lor_shift_add V7 ((seq >>> 8) % 256 % 16) 4 (Nat.mod_lt _ (by norm_num))]
    simp only [Nat.shiftRight_eq_div_pow, V7]
    norm_num
    omega
  have hsplit : (v7Bytes ms seq rand8).toList =
      [(ms >>> 40) % 256, (ms >>> 32) % 256, (ms >>> 24) % 256,
        (ms >>> 16) % 256, (ms >>> 8) % 256, ms % 256] ++
      ([(((seq >>> 8) % 256) &&& 0x0f) ||| (V7 <<< 4), seq % 256] ++
       [(rand8.getD 0 0 &&& 0x1f) ||| (VariantRFC4122 <<< 5),
        rand8.getD 1 0, rand8.getD 2 0, rand8.getD 3 0, rand8.getD 4 0,
        rand8.getD 5 0, rand8.getD 6 0, rand8.getD 7 0]) := rfl
  refine ⟨val256 [(rand8.getD 0 0 &&& 0x1f) ||| (VariantRFC4122 <<< 5),
    rand8.getD 1 0, rand8.getD 2 0, rand8.getD 3 0, rand8.getD 4 0,
    rand8.getD 5 0, rand8.getD 6 0, rand8.getD 7 0], ?_, ?_⟩
  · have hwf : ∀ x ∈ [(rand8.getD 0 0 &&& 0x1f) ||| (VariantRFC4122 <<< 5),
        rand8.getD 1 0, rand8.getD 2 0, rand8.getD 3 0, rand8.getD 4 0,
        rand8.getD 5 0, rand8.getD 6 0, rand8.getD 7 0], x < 256 := by
      intro x hx
      simp only [List.mem_cons, List.not_mem_nil, or_false] at hx
      rcases hx with rfl | rfl | rfl | rfl | rfl | rfl | rfl | rfl
      · exact setVariant_b8_lt_aux _ (getD_lt_256 _ _ hr)
      all_goals exact getD_lt_256 _ _ hr
    have hv := val256_lt _ hwf
    have hlen : (256 : Nat) ^ ([(rand8.getD 0 0 &&& 0x1f) ||| (VariantRFC4122 <<< 5),
        rand8.getD 1 0, rand8.getD 2 0, rand8.getD 3 0, rand8.getD 4 0,
        rand8.getD 5 0, rand8.getD 6 0, rand8.getD 7 0] : List Nat).length = 2 ^ 64 := by
      norm_num
    rw [hlen] at hv
    exact hv
  · rw [hsplit, val256_append, val256_append, val6_ms ms hm, hb6]
    simp only [List.length_append, List.length_cons, List.length_nil, val256]
    norm_num
    omega

/-- Step facts of the v7 sequencer: the emitted pair equals the new
state, stays within the 12-bit counter bound, and strictly exceeds
the previous state pair, for every clock behaviour. -/
theorem getV7Time_step (s : v7State) (now waitNow r0 r1 : Nat)
    (hinv : s.lastSeq ≤ 0x0FFF)
    (hwait : now = s.lastMs → s.lastSeq = 0x0FFF → now < waitNow) :
    (getV7Time s now waitNow r0 r1).1 = (getV7Time s now waitNow r0 r1).2.2.lastMs ∧
    (getV7Time s now waitNow r0 r1).2.1 = (getV7Time s now waitNow r0 r1).2.2.lastSeq ∧
    (getV7Time s now waitNow r0 r1).2.1 ≤ 0x0FFF ∧
    pairLt (s.lastMs, s.lastSeq)
      ((getV7Time s now waitNow r0 r1).1, (getV7Time s now waitNow r0 r1).2.1) := by
  unfold getV7Time
  split_ifs with h1 h2 h3 h4 <;> dsimp only
  · exact ⟨rfl, rfl, by omega, Or.inl (h1 ▸ hwait h1 h2)⟩
  · exact ⟨h1, rfl, by omega, Or.inr ⟨h1.symm, by omega⟩⟩
  · refine ⟨rfl, rfl, ?_, Or.inl h3⟩
    simpa using @Nat.and_le_right ((r0 <<< 8) ||| r1) 0x0FFF
  · exact ⟨rfl, rfl, by omega, Or.inl (by omega)⟩
  · exact ⟨rfl, rfl, by omega, Or.inr ⟨rfl, by omega⟩⟩

/-- Length equality through a common literal length: keeps the kernel
from comparing two unrelated symbolic lists. -/
theorem length_eq_of_both (l1 l2 : List Nat) (n : Nat)
    (h1 : l1.length = n) (h2 : l2.length = n) : l1.length = l2.length :=
  h1.trans h2.symm

theorem v7Bytes_lt (m1 q1 m2 q2 : Nat) (l1 l2 : List Nat)
    (h1 : m1 < 2 ^ 48) (h2 : m2 < 2 ^ 48) (hq1 : q1 ≤ 4095) (hq2 : q2 ≤ 4095)
    (hr1 : ∀ c ∈ l1, c < 256) (hr2 : ∀ c ∈ l2, c < 256)
    (hp : pairLt (m1, q1) (m2, q2)) :
    lexLt (v7Bytes m1 q1 l1).toList (v7Bytes m2 q2 l2).toList = true := by
  obtain ⟨T1, hT1, hval1⟩ := v7Bytes_val m1 q1 l1 h1 hq1 hr1
  obtain ⟨T2, hT2, hval2⟩ := v7Bytes_val m2 q2 l2 h2 hq2 hr2
  rw [lexLt_eq_true_iff (v7Bytes m1 q1 l1).toList (v7Bytes m2 q2 l2).toList
    (length_eq_of_both _ _ 16 rfl rfl) (Wf_mem _ (v7Bytes_wf _ _ _ hr1))
    (Wf_mem _ (v7Bytes_wf _ _ _ hr2)), hval1, hval2]
  simp only [pairLt] at hp
  norm_num at hT1 hT2 ⊢
  rcases hp with h | ⟨he, h⟩
  · omega
  · omega

/-- Strict monotonicity of the hex digit characters below 16. -/
theorem hexChar_lt_mono : ∀ x < 16, ∀ y < 16, x < y → hexChar x < hexChar y := by
  decide

theorem lexLt_cons_same (c : Nat) (l1 l2 : List Nat) :
    lexLt (c :: l1) (c :: l2) = lexLt l1 l2 := by
  simp [lexLt]

theorem lexLt_append_congr : ∀ a b c d : List Nat, a.length = b.length →
    lexLt (a ++ c) (b ++ d) = (lexLt a b || (a == b && lexLt c d))
  | [], [], c, d, _ => by simp [lexLt]
  | [], _ :: _, _, _, h => by simp at h
  | _ :: _, [], _, _, h => by simp at h
  | x :: xs, y :: ys, c, d, h => by
    have hlen : xs.length = ys.length := by simpa using h
    show lexLt (x :: (xs ++ c)) (y :: (ys ++ d)) = _
    rw [show lexLt (x :: (xs ++ c)) (y :: (ys ++ d)) =
          (decide (x < y) || (x == y && lexLt (xs ++ c) (ys ++ d))) from rfl,
      lexLt_append_congr xs ys c d hlen,
      show lexLt (x :: xs) (y :: ys) =
          (decide (x < y) || (x == y && lexLt xs ys)) from rfl,
      show ((x :: xs) == (y :: ys)) = (x == y && xs == ys) from rfl]
    cases decide (x < y) <;> cases (x == y) <;>
      simp [Bool.and_or_distrib_left, Bool.and_assoc]

/-- Hex rendering preserves strict lexicographic order on byte lists. -/
theorem hexList_lexLt : ∀ l1 l2 : List Nat,
    (∀ x ∈ l1, x < 256) → (∀ x ∈ l2, x < 256) →
    lexLt l1 l2 = true → lexLt (hexList l1) (hexList l2) = true
  | [], [], _, _, h => by simp [lexLt] at h
  | [], b :: t2, _, _, _ => by
    rw [show hexList [] = ([] : List Nat) from rfl,
      show hexList (b :: t2) = hexChar (b / 16) :: hexChar (b % 16) :: hexList t2 from rfl]
    rfl
  | a :: t1, [], _, _, h => by simp [lexLt] at h
  | a :: t1, b :: t2, h1, h2, h => by
    have ha : a < 256 := h1 a (by simp)
    have hb : b < 256 := h2 b (by simp)
    rw [show hexList (a :: t1) = hexChar (a / 16) :: hexChar (a % 16) :: hexList t1 from rfl,
      show hexList (b :: t2) = hexChar (b / 16) :: hexChar (b % 16) :: hexList t2 from rfl]
    simp only [lexLt, Bool.or_eq_true, decide_eq_true_eq, Bool.and_eq_true,
      beq_iff_eq] at h ⊢
    rcases h with hab | ⟨rfl, ht⟩
    · rcases Nat.lt_or_ge (a / 16) (b / 16) with hd | hd
      · exact Or.inl (hexChar_lt_mono _ (by omega) _ (by omega) hd)
      · have hdeq : a / 16 = b / 16 := by omega
        have hm : a % 16 < b % 16 := by omega
        exact Or.inr ⟨by rw [hdeq],
          Or.inl (hexChar_lt_mono _ (by omega) _ (by omega) hm)⟩
    · exact Or.inr ⟨rfl, Or.inr ⟨rfl,
        hexList_lexLt t1 t2 (fun x hx => h1 x (by simp [hx]))
          (fun x hx => h2 x (by simp [hx])) ht⟩⟩

/-- The canonical hyphenated hex rendering preserves the byte order:
if the 16 bytes of u1 are lexicographically below those of u2, the
canonical strings compare the same way. -/
theorem String_lt_of_toList_lt (u1 u2 : UUID) (w1 : u1.Wf) (w2 : u2.Wf)
    (h : lexLt u1.toList u2.toList = true) :
    lexLt u1.String u2.String = true := by
  obtain ⟨a0, a1, a2, a3, a4, a5, a6, a7, a8, a9, a10, a11, a12, a13, a14, a15⟩ := w1
  obtain ⟨c0, c1, c2, c3, c4, c5, c6, c7, c8, c9, c10, c11, c12, c13, c14, c15⟩ := w2
  have hb1 : ∀ x ∈ [u1.b0, u1.b1, u1.b2, u1.b3], x < 256 := by
    intro x hx; simp only [List.mem_cons, List.not_mem_nil, or_false] at hx
    rcases hx with rfl | rfl | rfl | rfl <;> assumption
  have hb2 : ∀ x ∈ [u1.b4, u1.b5], x < 256 := by
    intro x hx; simp only [List.mem_cons, List.not_mem_nil, or_false] at hx
    rcases hx with rfl | rfl <;> assumption
  have hb3 : ∀ x ∈ [u1.b6, u1.b7], x < 256 := by
    intro x hx; simp only [List.mem_cons, List.not_mem_nil, or_false] at hx
    rcases hx with rfl | rfl <;> assumption
  have hb4 : ∀ x ∈ [u1.b8, u1.b9], x < 256 := by
    intro x hx; simp only [List.mem_cons, List.not_mem_nil, or_false] at hx
    rcases hx with rfl | rfl <;> assumption
  have hb5 : ∀ x ∈ [u1.b10, u1.b11, u1.b12, u1.b13, u1.b14, u1.b15], x < 256 := by
    intro x hx; simp only [List.mem_cons, List.not_mem_nil, or_false] at hx
    rcases hx with rfl | rfl | rfl | rfl | rfl | rfl <;> assumption
  have hd1 : ∀ x ∈ [u2.b0, u2.b1, u2.b2, u2.b3], x < 256 := by
    intro x hx; simp only [List.mem_cons, List.not_mem_nil, or_false] at hx
    rcases hx with rfl | rfl | rfl | rfl <;> assumption
  have hd2 : ∀ x ∈ [u2.b4, u2.b5], x < 256 := by
    intro x hx; simp only [List.mem_cons, List.not_mem_nil, or_false] at hx
    rcases hx with rfl | rfl <;> assumption
  have hd3 : ∀ x ∈ [u2.b6, u2.b7], x < 256 := by
    intro x hx; simp only [List.mem_cons, List.not_mem_nil, or_false] at hx
    rcases hx with rfl | rfl <;> assumption
  have hd4 : ∀ x ∈ [u2.b8, u2.b9], x < 256 := by
    intro x hx; simp only [List.mem_cons, List.not_mem_nil, or_false] at hx
    rcases hx with rfl | rfl <;> assumption
  have hd5 : ∀ x ∈ [u2.b10, u2.b11, u2.b12, u2.b13, u2.b14, u2.b15], x < 256 := by
    intro x hx; simp only [List.mem_cons, List.not_mem_nil, or_false] at hx
    rcases hx with rfl | rfl | rfl | rfl | rfl | rfl <;> assumption
  rw [show u1.toList = [u1.b0, u1.b1, u1.b2, u1.b3] ++ ([u1.b4, u1.b5] ++
      ([u1.b6, u1.b7] ++ ([u1.b8, u1.b9] ++
      [u1.b10, u1.b11, u1.b12, u1.b13, u1.b14, u1.b15]))) from rfl,
    show u2.toList = [u2.b0, u2.b1, u2.b2, u2.b3] ++ ([u2.b4, u2.b5] ++
      ([u2.b6, u2.b7] ++ ([u2.b8, u2.b9] ++
      [u2.b10, u2.b11, u2.b12, u2.b13, u2.b14, u2.b15]))) from rfl,
    lexLt_append_congr [u1.b0, u1.b1, u1.b2, u1.b3]
      [u2.b0, u2.b1, u2.b2, u2.b3] _ _ (length_eq_of_both _ _ 4 rfl rfl)] at h
  rw [show u1.String = hexList [u1.b0, u1.b1, u1.b2, u1.b3] ++ (45 ::
      (hexList [u1.b4, u1.b5] ++ (45 :: (hexList [u1.b6, u1.b7] ++ (45 ::
      (hexList [u1.b8, u1.b9] ++ (45 ::
      hexList [u1.b10, u1.b11, u1.b12, u1.b13, u1.b14, u1.b15]))))))) from rfl,
    show u2.String = hexList [u2.b0, u2.b1, u2.b2, u2.b3] ++ (45 ::
      (hexList [u2.b4, u2.b5] ++ (45 :: (hexList [u2.b6, u2.b7] ++ (45 ::
      (hexList [u2.b8, u2.b9] ++ (45 ::
      hexList [u2.b10, u2.b11, u2.b12, u2.b13, u2.b14, u2.b15]))))))) from rfl,
    lexLt_append_congr (hexList [u1.b0, u1.b1, u1.b2, u1.b3])
      (hexList [u2.b0, u2.b1, u2.b2, u2.b3]) _ _ (length_eq_of_both _ _ 8 rfl rfl)]
  simp only [Bool.or_eq_true, Bool.and_eq_true, beq_iff_eq] at h ⊢
  rcases h with h | ⟨heq1, h⟩
  · exact Or.inl (hexList_lexLt _ _ hb1 hd1 h)
  · refine Or.inr ⟨by rw [heq1], ?_⟩
    rw [lexLt_append_congr [u1.b4, u1.b5] [u2.b4, u2.b5] _ _
      (length_eq_of_both _ _ 2 rfl rfl)] at h
    rw [lexLt_cons_same,
      lexLt_append_congr (hexList [u1.b4, u1.b5]) (hexList [u2.b4, u2.b5]) _ _
        (length_eq_of_both _ _ 4 rfl rfl)]
    simp only [Bool.or_eq_true, Bool.and_eq_true, beq_iff_eq] at h ⊢
    rcases h with h | ⟨heq2, h⟩
    · exact Or.inl (hexList_lexLt _ _ hb2 hd2 h)
    · refine Or.inr ⟨by rw [heq2], ?_⟩
      rw [lexLt_append_congr [u1.b6, u1.b7] [u2.b6, u2.b7] _ _
        (length_eq_of_both _ _ 2 rfl rfl)] at h
      rw [lexLt_cons_same,
        lexLt_append_congr (hexList [u1.b6, u1.b7]) (hexList [u2.b6, u2.b7]) _ _
          (length_eq_of_both _ _ 4 rfl rfl)]
      simp only [Bool.or_eq_true, Bool.and_eq_true, beq_iff_eq] at h ⊢
      rcases h with h | ⟨heq3, h⟩
      · exact Or.inl (hexList_lexLt _ _ hb3 hd3 h)
      · refine Or.inr ⟨by rw [heq3], ?_⟩
        rw [lexLt_append_congr [u1.b8, u1.b9] [u2.b8, u2.b9] _ _
          (length_eq_of_both _ _ 2 rfl rfl)] at h
        rw [lexLt_cons_same,
          lexLt_append_congr (hexList [u1.b8, u1.b9]) (hexList [u2.b8, u2.b9]) _ _
            (length_eq_of_both _ _ 4 rfl rfl)]
        simp only [Bool.or_eq_true, Bool.and_eq_true, beq_iff_eq] at h ⊢
        rcases h with h | ⟨heq4, h⟩
        · exact Or.inl (hexList_lexLt _ _ hb4 hd4 h)
        · refine Or.inr ⟨by rw [heq4], ?_⟩
          rw [lexLt_cons_same]
          exact hexList_lexLt _ _ hb5 hd5 h

/-- C1: outputs of the v7 sequencer strictly increase, for every
clock behaviour.  The emitted pair equals the stored state (so the
previous call's output is the current state), each call's pair
strictly exceeds the previous one, and the identifier assembled from
the new pair is strictly greater, as 16 bytes and as canonical hex
string, than the one assembled from the previous pair, regardless of
the random tail bytes. -/
theorem NewV7_monotonic (s : v7State) (now waitNow r0 r1 : Nat)
    (prevRand rand8 : List Nat)
    (hinv : s.lastSeq ≤ 0x0FFF)
    (hwait : now = s.lastMs → s.lastSeq = 0x0FFF → now < waitNow)
    (hms0 : s.lastMs < 2 ^ 48)
    (hms1 : (getV7Time s now waitNow r0 r1).2.2.lastMs < 2 ^ 48)
    (hpr : ∀ c ∈ prevRand, c < 256) (hra : ∀ c ∈ rand8, c < 256) :
    ((getV7Time s now waitNow r0 r1).1, (getV7Time s now waitNow r0 r1).2.1) =
      ((getV7Time s now waitNow r0 r1).2.2.lastMs,
       (getV7Time s now waitNow r0 r1).2.2.lastSeq) ∧
    (getV7Time s now waitNow r0 r1).2.1 ≤ 0x0FFF ∧
    pairLt (s.lastMs, s.lastSeq)
      ((getV7Time s now waitNow r0 r1).1, (getV7Time s now waitNow r0 r1).2.1) ∧
    lexLt (v7Bytes s.lastMs s.lastSeq prevRand).toList
      (NewV7 s now waitNow r0 r1 rand8).1.toList = true ∧
    lexLt (v7Bytes s.lastMs s.lastSeq prevRand).String
      (NewV7 s now waitNow r0 r1 rand8).1.String = true := by
  obtain ⟨e1, e2, hle, hpair⟩ := getV7Time_step s now waitNow r0 r1 hinv hwait
  have hms1' : (getV7Time s now waitNow r0 r1).1 < 2 ^ 48 := by
    rw [e1]; exact hms1
  have hbytes : lexLt (v7Bytes s.lastMs s.lastSeq prevRand).toList
      (v7Bytes (getV7Time s now waitNow r0 r1).1
        (getV7Time s now waitNow r0 r1).2.1 rand8).toList = true :=
    v7Bytes_lt _ _ _ _ _ _ hms0 hms1' hinv hle hpr hra hpair
  have hNew : (NewV7 s now waitNow r0 r1 rand8).1 =
      v7Bytes (getV7Time s now waitNow r0 r1).1
        (getV7Time s now waitNow r0 r1).2.1 rand8 := rfl
  refine ⟨?_, hle, hpair, ?_, ?_⟩
  · rw [Prod.mk.injEq]; exact ⟨e1, e2⟩
  · rw [hNew]; exact hbytes
  · rw [hNew]
    exact String_lt_of_toList_lt _ _ (v7Bytes_wf _ _ _ hpr)
      (v7Bytes_wf _ _ _ hra) hbytes

/-- Witness for NewV7_monotonic at concrete inputs. -/
theorem NewV7_monotonic_witness :
    pairLt (5, 10) ((getV7Time ⟨5, 10⟩ 5 6 0 0).1, (getV7Time ⟨5, 10⟩ 5 6 0 0).2.1) ∧
    lexLt (v7Bytes 5 10 [1, 2, 3, 4, 5, 6, 7, 8]).toList
      (NewV7 ⟨5, 10⟩ 5 6 0 0 [8, 7, 6, 5, 4, 3, 2, 1]).1.toList = true := by
  have h := NewV7_monotonic ⟨5, 10⟩ 5 6 0 0 [1, 2, 3, 4, 5, 6, 7, 8]
    [8, 7, 6, 5, 4, 3, 2, 1] (by decide) (by decide) (by decide) (by decide)
    (by decide) (by decide)
  exact ⟨h.2.2.1, h.2.2.2.1⟩

/-! Machinery for the Parse round-trip and error claims. -/

/-- Number of hex positions (character x = 120) in a pattern. -/
def countX : List Nat → Nat
  | [] => 0
  | p :: ps => (if p = 120 then 1 else 0) + countX ps

/-- Interleave hex characters hs into the x positions of a pattern;
the rendering of an identifier is exactly this applied to its hex
characters. -/
def substPattern : List Nat → List Nat → List Nat
  | [], _ => []
  | p :: ps, hs =>
    if p = 120 then
      match hs with
      | [] => []
      | h :: t => h :: substPattern ps t
    else p :: substPattern ps hs

theorem mem_substPattern : ∀ (pattern hs : List Nat) (c : Nat),
    c ∈ substPattern pattern hs → c ∈ pattern ∨ c ∈ hs
  | [], _, c, hc => by simp [substPattern] at hc
  | p :: ps, hs, c, hc => by
    simp only [substPattern] at hc
    by_cases hp : p = 120
    · rw [if_pos hp] at hc
      cases hs with
      | nil => simp at hc
      | cons h t =>
        simp only [List.mem_cons] at hc
        rcases hc with rfl | hc
        · exact Or.inr (by simp)
        · rcases mem_substPattern ps t c hc with h1 | h1
          · exact Or.inl (by simp [h1])
          · exact Or.inr (by simp [h1])
    · rw [if_neg hp] at hc
      simp only [List.mem_cons] at hc
      rcases hc with rfl | hc
      · exact Or.inl (by simp)
      · rcases mem_substPattern ps hs c hc with h1 | h1
        · exact Or.inl (by simp [h1])
        · exact Or.inr h1

/-- Walking a substituted source against its pattern succeeds and
collects exactly the substituted hex characters. -/
theorem parseSourceAux_subst : ∀ (pattern hs : List Nat) (i : Nat),
    (∀ c ∈ hs, ¬((c < 48 ∨ 57 < c) ∧ (c < 97 ∨ 102 < c))) →
    countX pattern = hs.length →
    parseSourceAux (substPattern pattern hs) pattern i = .ok hs
  | [], hs, i, _, hcount => by
    have : hs = [] := by
      cases hs with
      | nil => rfl
      | cons h t => simp [countX] at hcount
    subst this
    rfl
  | p :: ps, hs, i, hhex, hcount => by
    by_cases hp : p = 120
    · subst hp
      cases hs with
      | nil => simp [countX] at hcount
      | cons h t =>
        have hcount' : countX ps = t.length := by
          simp [countX] at hcount; omega
        have hh := hhex h (by simp)
        rw [show substPattern (120 :: ps) (h :: t) = h :: substPattern ps t by
          simp [substPattern]]
        simp only [parseSourceAux, if_pos rfl]
        rw [if_neg hh]
        rw [parseSourceAux_subst ps t (i + 1)
          (fun c hc => hhex c (by simp [hc])) hcount']
        simp
    · rw [show substPattern (p :: ps) hs = p :: substPattern ps hs by
        simp [substPattern, hp]]
      have hcount' : countX ps = hs.length := by
        simp [countX, hp] at hcount; exact hcount
      simp only [parseSourceAux, if_neg hp, ne_eq, not_true_eq_false]
      rw [if_neg (by simp)]
      exact parseSourceAux_subst ps hs (i + 1) hhex hcount'

theorem map_toLower_fixed : ∀ l : List Nat,
    (∀ c ∈ l, toLowerByte c = c) → l.map toLowerByte = l
  | [], _ => rfl
  | c :: t, h => by
    simp only [List.map_cons, h c (by simp),
      map_toLower_fixed t (fun x hx => h x (by simp [hx]))]

theorem hexChar_facts (n : Nat) (h : n < 16) :
    toLowerByte (hexChar n) = hexChar n ∧
    ¬((hexChar n < 48 ∨ 57 < hexChar n) ∧
      (hexChar n < 97 ∨ 102 < hexChar n)) := by
  unfold toLowerByte hexChar
  split_ifs <;> omega

theorem mem_hexList : ∀ (l : List Nat) (c : Nat), c ∈ hexList l →
    ∃ b ∈ l, c = hexChar (b / 16) ∨ c = hexChar (b % 16)
  | [], c, hc => by simp [hexList] at hc
  | b :: t, c, hc => by
    rw [show hexList (b :: t) =
      hexChar (b / 16) :: hexChar (b % 16) :: hexList t from rfl] at hc
    simp only [List.mem_cons] at hc
    rcases hc with rfl | rfl | hc
    · exact ⟨b, by simp, Or.inl rfl⟩
    · exact ⟨b, by simp, Or.inr rfl⟩
    · obtain ⟨b', hb', hcase⟩ := mem_hexList t c hc
      exact ⟨b', by simp [hb'], hcase⟩

theorem shortString_mem (u : UUID) (h : u.Wf) :
    ∀ c ∈ u.ShortString, toLowerByte c = c ∧
      ¬((c < 48 ∨ 57 < c) ∧ (c < 97 ∨ 102 < c)) := by
  intro c hc
  obtain ⟨b, hb, hcase⟩ := mem_hexList _ _ hc
  have hb256 : b < 256 := Wf_mem u h b hb
  rcases hcase with rfl | rfl
  · exact hexChar_facts _ (by omega)
  · exact hexChar_facts _ (by omega)

theorem shortString_length (u : UUID) : (u.ShortString).length = 32 := rfl

theorem fromHexChar_hexChar (n : Nat) (h : n < 16) :
    fromHexChar (hexChar n) = some n := by
  unfold fromHexChar hexChar
  split_ifs <;> simp_all <;> omega

theorem hexDecode_cons₂ (x y hi lo : Nat) (rest : List Nat)
    (hx : fromHexChar x = some hi) (hy : fromHexChar y = some lo) :
    hexDecode (x :: y :: rest) =
      (match hexDecode rest with
       | some ds => some (((hi <<< 4) ||| lo) :: ds)
       | none => none) := by
  simp [hexDecode, hx, hy]

theorem hexDecode_hexList : ∀ l : List Nat, (∀ b ∈ l, b < 256) →
    hexDecode (hexList l) = some l
  | [], _ => rfl
  | b :: t, h => by
    have hb : b < 256 := h b (by simp)
    rw [show hexList (b :: t) =
      hexChar (b / 16) :: hexChar (b % 16) :: hexList t from rfl]
    rw [hexDecode_cons₂ _ _ _ _ _ (fromHexChar_hexChar _ (by omega))
      (fromHexChar_hexChar _ (by omega))]
    rw [hexDecode_hexList t (fun x hx => h x (by simp [hx]))]
    have hval : ((b / 16) <<< 4) ||| (b % 16) = b := by
      rw [lor_shift_add (b / 16) (b % 16) 4 (by norm_num [Nat.mod_lt])]
      norm_num
      omega
    simp [hval]

/-- parseSource accepts the rendering of an identifier along the
pattern it was rendered from and returns its 32 hex characters. -/
theorem parseSource_subst (pattern : List Nat) (u : UUID) (hwf : u.Wf)
    (hpat : ∀ p ∈ pattern, toLowerByte p = p)
    (hcount : countX pattern = 32) :
    parseSource (substPattern pattern u.ShortString) pattern = .ok u.ShortString := by
  have hhex : ∀ c ∈ u.ShortString,
      ¬((c < 48 ∨ 57 < c) ∧ (c < 97 ∨ 102 < c)) :=
    fun c hc => (shortString_mem u hwf c hc).2
  have hlower : (substPattern pattern u.ShortString).map toLowerByte =
      substPattern pattern u.ShortString := by
    apply map_toLower_fixed
    intro c hc
    rcases mem_substPattern pattern u.ShortString c hc with hcp | hcs
    · exact hpat c hcp
    · exact (shortString_mem u hwf c hcs).1
  have hcnt : countX pattern = (u.ShortString).length :=
    hcount.trans (shortString_length u).symm
  unfold parseSource
  rw [hlower, parseSourceAux_subst pattern u.ShortString 0 hhex hcnt]
  have hz : (32 : Nat) - (u.ShortString).length = 0 := by
    rw [shortString_length]
  simp [hz]

/-- C4: Parse succeeds and returns the original identifier on each of
the four renderings -- canonical, compact, URN-prefixed, braced --
for every 16-byte value, regardless of version and variant bits. -/
theorem Parse_roundtrip (u : UUID) (h : u.Wf) :
    Parse u.String = .ok u ∧ Parse u.ShortString = .ok u ∧
    Parse u.urnString = .ok u ∧ Parse u.bracedString = .ok u := by
  have hdec := hexDecode_hexList u.toList (Wf_mem u h)
  refine ⟨?_, ?_, ?_, ?_⟩
  · have hlen : (substPattern patternCanonical u.ShortString).length = 36 := rfl
    rw [show u.String = substPattern patternCanonical u.ShortString from rfl]
    simp only [Parse, hlen]
    rw [parseSource_subst patternCanonical u h (by decide) rfl]
    show (match hexDecode u.ShortString with
          | none => Except.error ParseError.noHexValue
          | some hexData => Except.ok (listToUUID hexData)) = Except.ok u
    rw [show u.ShortString = hexList u.toList from rfl, hdec]
    rfl
  · have hlen : (substPattern patternCompact u.ShortString).length = 32 := rfl
    rw [show u.ShortString = substPattern patternCompact u.ShortString from rfl]
    simp only [Parse, hlen]
    rw [parseSource_subst patternCompact u h (by decide) rfl]
    show (match hexDecode u.ShortString with
          | none => Except.error ParseError.noHexValue
          | some hexData => Except.ok (listToUUID hexData)) = Except.ok u
    rw [show u.ShortString = hexList u.toList from rfl, hdec]
    rfl
  · have hlen : (substPattern patternURN u.ShortString).length = 45 := rfl
    rw [show u.urnString = substPattern patternURN u.ShortString from rfl]
    simp only [Parse, hlen]
    rw [parseSource_subst patternURN u h (by decide) rfl]
    show (match hexDecode u.ShortString with
          | none => Except.error ParseError.noHexValue
          | some hexData => Except.ok (listToUUID hexData)) = Except.ok u
    rw [show u.ShortString = hexList u.toList from rfl, hdec]
    rfl
  · have hlen : (substPattern patternBraced u.ShortString).length = 38 := rfl
    rw [show u.bracedString = substPattern patternBraced u.ShortString from rfl]
    simp only [Parse, hlen]
    rw [parseSource_subst patternBraced u h (by decide) rfl]
    show (match hexDecode u.ShortString with
          | none => Except.error ParseError.noHexValue
          | some hexData => Except.ok (listToUUID hexData)) = Except.ok u
    rw [show u.ShortString = hexList u.toList from rfl, hdec]
    rfl

/-- Witness for Parse_roundtrip at a concrete identifier. -/
theorem Parse_roundtrip_witness :
    UUID.Wf ⟨18, 52, 86, 120, 154, 188, 222, 240, 1, 35, 69, 103, 137, 171, 205, 239⟩ ∧
    Parse (UUID.String ⟨18, 52, 86, 120, 154, 188, 222, 240, 1, 35, 69, 103, 137, 171, 205, 239⟩) =
      .ok ⟨18, 52, 86, 120, 154, 188, 222, 240, 1, 35, 69, 103, 137, 171, 205, 239⟩ :=
  ⟨by decide,
    (Parse_roundtrip ⟨18, 52, 86, 120, 154, 188, 222, 240, 1, 35, 69, 103, 137, 171, 205, 239⟩
      (by decide)).1⟩

/-! Machinery for the Parse error claim. -/

theorem toLowerByte_idem (c : Nat) : toLowerByte (toLowerByte c) = toLowerByte c := by
  unfold toLowerByte
  split_ifs <;> omega

/-- Whether position j of the lowered source agrees with the pattern:
a hex character at an x position, the pattern's literal otherwise. -/
def matchAt (lsrc pat : List Nat) (j : Nat) : Bool :=
  if pat.getD j 0 = 120 then
    decide (¬((lsrc.getD j 0 < 48 ∨ 57 < lsrc.getD j 0) ∧
      (lsrc.getD j 0 < 97 ∨ 102 < lsrc.getD j 0)))
  else lsrc.getD j 0 == pat.getD j 0

/-- The pattern src/uuid.go Parse selects for each accepted length. -/
def patternFor (n : Nat) : List Nat :=
  if n = 36 then patternCanonical
  else if n = 45 then patternURN
  else if n = 38 then patternBraced
  else if n = 32 then patternCompact
  else []

/-- The walk of parseSource stops at the first mismatching position
and reports that position's index and character, with the error kind
determined by whether the pattern expects a hex character there. -/
theorem parseSourceAux_mismatch : ∀ (lsrc pat : List Nat) (i0 i : Nat),
    lsrc.length = pat.length → i < lsrc.length →
    (∀ j, j < i → matchAt lsrc pat j = true) →
    matchAt lsrc pat i = false →
    parseSourceAux lsrc pat i0 =
      .error (if pat.getD i 0 = 120
              then .noHexChar (i0 + i) (lsrc.getD i 0)
              else .patternMismatch (i0 + i) (lsrc.getD i 0) (pat.getD i 0))
  | [], _, _, i, _, hi, _, _ => by simp at hi
  | _ :: _, [], _, _, hlen, _, _, _ => by simp at hlen
  | b :: rest, p :: prest, i0, 0, hlen, hi, hbefore, hmis => by
    simp only [matchAt, List.getD_cons_zero] at hmis ⊢
    by_cases hp : p = 120
    · rw [if_pos hp] at hmis ⊢
      have hbad : ((b < 48 ∨ 57 < b) ∧ (b < 97 ∨ 102 < b)) :=
        not_not.mp (of_decide_eq_false hmis)
      simp only [parseSourceAux, if_pos hp, if_pos hbad]
      simp
    · rw [if_neg hp] at hmis ⊢
      have hbp : b ≠ p := by simpa using hmis
      simp only [parseSourceAux, if_neg hp]
      rw [if_pos hbp]
      simp
  | b :: rest, p :: prest, i0, i + 1, hlen, hi, hbefore, hmis => by
    have hlen' : rest.length = prest.length := by simpa using hlen
    have hi' : i < rest.length := by simpa using hi
    have hmis' : matchAt rest prest i = false := by
      simp only [matchAt, List.getD_cons_succ] at hmis
      simp only [matchAt]
      exact hmis
    have hbefore' : ∀ j, j < i → matchAt rest prest j = true := by
      intro j hj
      have hb := hbefore (j + 1) (by omega)
      simp only [matchAt, List.getD_cons_succ] at hb
      simp only [matchAt]
      exact hb
    have hhead := hbefore 0 (by omega)
    have ih := parseSourceAux_mismatch rest prest (i0 + 1) i hlen' hi' hbefore' hmis'
    simp only [matchAt, List.getD_cons_zero] at hhead
    have harith : i0 + 1 + i = i0 + (i + 1) := by omega
    by_cases hp : p = 120
    · rw [if_pos hp] at hhead
      have hok : ¬((b < 48 ∨ 57 < b) ∧ (b < 97 ∨ 102 < b)) :=
        of_decide_eq_true hhead
      simp only [parseSourceAux, if_pos hp, if_neg hok, ih, harith,
        List.getD_cons_succ]
    · rw [if_neg hp] at hhead
      have hbp : b = p := by simpa using hhead
      simp only [parseSourceAux, if_neg hp, hbp, ne_eq, not_true_eq_false]
      rw [if_neg (by simp)]
      rw [ih, harith]
      simp only [List.getD_cons_succ]

/-- C5: Parse accepts exactly the lengths 36, 45, 38 and 32 and fails
with the format error otherwise; parsing is insensitive to
lower-casing of the input; and on an accepted length, the first
mismatching position is reported with its index: as a non-hex error
if the pattern expects a hex character there, as a literal mismatch
error otherwise. -/
theorem Parse_errors :
    (∀ src : List Nat, src.length ≠ 36 → src.length ≠ 45 →
      src.length ≠ 38 → src.length ≠ 32 →
      Parse src = .error .invalidFormat) ∧
    (∀ src : List Nat, Parse (src.map toLowerByte) = Parse src) ∧
    (∀ (src : List Nat) (i : Nat),
      (src.length = 36 ∨ src.length = 45 ∨ src.length = 38 ∨ src.length = 32) →
      i < src.length →
      (∀ j, j < i → matchAt (src.map toLowerByte) (patternFor src.length) j = true) →
      matchAt (src.map toLowerByte) (patternFor src.length) i = false →
      Parse src = .error (if (patternFor src.length).getD i 0 = 120
        then .noHexChar i ((src.map toLowerByte).getD i 0)
        else .patternMismatch i ((src.map toLowerByte).getD i 0)
          ((patternFor src.length).getD i 0))) := by
  refine ⟨?_, ?_, ?_⟩
  · intro src h36 h45 h38 h32
    simp only [Parse]
    rw [if_neg h36, if_neg (show ¬src.length = 36 + 9 by omega),
      if_neg (show ¬src.length = 36 + 2 by omega), if_neg h32]
  · intro src
    have hmm : (src.map toLowerByte).map toLowerByte = src.map toLowerByte := by
      apply map_toLower_fixed
      intro c hc
      obtain ⟨a, -, rfl⟩ := List.mem_map.mp hc
      exact toLowerByte_idem a
    have hps : ∀ pat, parseSource (src.map toLowerByte) pat = parseSource src pat := by
      intro pat
      unfold parseSource
      rw [hmm]
    simp only [Parse, List.length_map, hps]
  · intro src i hacc hi hbefore hmis
    have hmap : (src.map toLowerByte).length = src.length := List.length_map _ _
    rcases hacc with hl | hl | hl | hl
    · rw [hl, show patternFor 36 = patternCanonical from rfl] at hbefore hmis ⊢
      simp only [Parse]
      rw [if_pos hl]
      unfold parseSource
      rw [parseSourceAux_mismatch (src.map toLowerByte) patternCanonical 0 i
        (by rw [hmap, hl]; rfl) (by omega) hbefore hmis]
      simp
    · rw [hl, show patternFor 45 = patternURN from rfl] at hbefore hmis ⊢
      simp only [Parse]
      rw [if_neg (show ¬src.length = 36 by omega),
        if_pos (show src.length = 36 + 9 by omega)]
      unfold parseSource
      rw [parseSourceAux_mismatch (src.map toLowerByte) patternURN 0 i
        (by rw [hmap, hl]; rfl) (by omega) hbefore hmis]
      simp
    · rw [hl, show patternFor 38 = patternBraced from rfl] at hbefore hmis ⊢
      simp only [Parse]
      rw [if_neg (show ¬src.length = 36 by omega),
        if_neg (show ¬src.length = 36 + 9 by omega),
        if_pos (show src.length = 36 + 2 by omega)]
      unfold parseSource
      rw [parseSourceAux_mismatch (src.map toLowerByte) patternBraced 0 i
        (by rw [hmap, hl]; rfl) (by omega) hbefore hmis]
      simp
    · rw [hl, show patternFor 32 = patternCompact from rfl] at hbefore hmis ⊢
      simp only [Parse]
      rw [if_neg (show ¬src.length = 36 by omega),
        if_neg (show ¬src.length = 36 + 9 by omega),
        if_neg (show ¬src.length = 36 + 2 by omega),
        if_pos hl]
      unfold parseSource
      rw [parseSourceAux_mismatch (src.map toLowerByte) patternCompact 0 i
        (by rw [hmap, hl]; rfl) (by omega) hbefore hmis]
      simp

/-- Witness for Parse_errors at concrete inputs: a length-2 input is
a format error; lower-casing does not change the result; the compact
input 00g000...0 (103 is the letter g) fails with a non-hex error
naming index 2. -/
theorem Parse_errors_witness :
    Parse [48, 48] = .error .invalidFormat ∧
    Parse (List.map toLowerByte [65, 66]) = Parse [65, 66] ∧
    Parse ([48, 48, 103] ++ List.replicate 29 48) =
      .error (.noHexChar 2 103) := by
  have h := Parse_errors
  refine ⟨h.1 [48, 48] (by decide) (by decide) (by decide) (by decide),
    h.2.1 [65, 66], ?_⟩
  have h3 := h.2.2 ([48, 48, 103] ++ List.replicate 29 48) 2
    (by decide) (by decide) (by decide) (by decide)
  rw [h3]
  rfl

end GoUuid
